import Mathlib

/-!
Shallow embedding of `src/block.py` (DelugeWatchdogService) and verification
of the specification's claims about it.

Strings from the Python source are modelled as `List Char`; Python's
`str.endswith` is exact suffix comparison, modelled by `List.isSuffixOf`.
Machine-level concerns (byte decoding, logging text) are abstracted away;
every control-flow decision of the embedded functions follows the source.
-/

namespace DelugeBlock

/-- Python strings, as exact character sequences (case-sensitive, no
normalization). -/
abbrev Str := List Char

/-- Embeds `any(file_name.endswith(ext) for ext in extensions)` as used at
src/block.py:159 (unwanted policy) and src/block.py:168 (forbidden policy).
Python's `str.endswith` is an exact suffix test. -/
def matchesAny (file_name : Str) (extensions : List Str) : Bool :=
  extensions.any (fun ext => ext.isSuffixOf file_name)

/-- Embeds the per-file loop of `check_and_remove_torrents`
(src/block.py:154-171): `for file_info, file_priority in zip(files, file_priorities)`.
For each zipped pair it first appends the replacement priority (0 when the
priority is positive and the path matches the unwanted policy, the existing
priority otherwise), then checks the forbidden policy and breaks on a match.
Returns the accumulated priority list and the forbidden file's path, if any. -/
def fileScan (forbidden_extensions unwanted_extensions : List Str) :
    List Str → List Int → List Int × Option Str
  | [], _ => ([], none)
  | _ :: _, [] => ([], none)
  | file_name :: files, file_priority :: file_priorities =>
    let newPriority : Int :=
      if 0 < file_priority then
        if matchesAny file_name unwanted_extensions then 0 else file_priority
      else file_priority
    if matchesAny file_name forbidden_extensions then
      ([newPriority], some file_name)
    else
      let rest := fileScan forbidden_extensions unwanted_extensions files file_priorities
      (newPriority :: rest.1, rest.2)

/-- The decision taken for one torrent, as described by the classification
logic of `check_and_remove_torrents`. -/
inductive Decision where
  | Remove (reason : Str)
  | Adjust (priorities : List Int)
  | NoAction
deriving DecidableEq, Repr

/-- The per-torrent classification of `check_and_remove_torrents`
(src/block.py:146-187): an empty file list is skipped (`NoAction`,
src/block.py:146-148); a forbidden match yields removal (src/block.py:175);
otherwise the rebuilt priority list is applied (src/block.py:183). -/
def classifyTorrent (forbidden_extensions unwanted_extensions : List Str)
    (files : List Str) (file_priorities : List Int) : Decision :=
  if files.isEmpty then Decision.NoAction
  else
    match fileScan forbidden_extensions unwanted_extensions files file_priorities with
    | (_, some file_name) => Decision.Remove file_name
    | (priorities, none) => Decision.Adjust priorities

/-- One torrent of the batch returned by `core.get_torrents_status`
(src/block.py:127-129): id, name, file paths and per-file priorities. -/
structure Torrent where
  torrent_id : Str
  name : Str
  files : List Str
  file_priorities : List Int
deriving DecidableEq, Repr

/-- The apply RPCs `check_and_remove_torrents` can issue per torrent:
`core.remove_torrent` with id and delete_data (src/block.py:179-181) and
`core.set_torrent_options` with id and the file_priorities payload
(src/block.py:183-187). -/
inductive RpcCall where
  | remove_torrent (torrent_id : Str) (delete_data : Bool)
  | set_torrent_options (torrent_id : Str) (file_priorities : List Int)
deriving DecidableEq, Repr

/-- Externally visible events of processing one torrent: the torrent passed
the cache check and was looked at (`logger.info "Validating ..."`,
src/block.py:141), an apply RPC was issued and succeeded, or the apply RPC
raised and was caught and logged (src/block.py:188-189). -/
inductive Event where
  | validated (name : Str)
  | rpc (call : RpcCall)
  | rpcError (name : Str)
deriving DecidableEq, Repr

/-- Embeds one iteration of the torrent loop of `check_and_remove_torrents`
(src/block.py:134-189). A cached name is skipped (src/block.py:137-138);
otherwise the name is appended to `dcache` first (src/block.py:139), the
torrent is classified, and the decision's apply RPC is attempted inside
try/except. `applyFails t` says whether that RPC raises. Returns the updated
cache and the events, in order. -/
def processTorrent (forbidden_extensions unwanted_extensions : List Str)
    (applyFails : Torrent → Bool) (dcache : List Str) (t : Torrent) :
    List Str × List Event :=
  if t.name ∈ dcache then (dcache, [])
  else
    (dcache ++ [t.name],
      Event.validated t.name ::
        match classifyTorrent forbidden_extensions unwanted_extensions
            t.files t.file_priorities with
        | Decision.NoAction => []
        | Decision.Remove _ =>
          if applyFails t then [Event.rpcError t.name]
          else [Event.rpc (RpcCall.remove_torrent t.torrent_id true)]
        | Decision.Adjust priorities =>
          if applyFails t then [Event.rpcError t.name]
          else [Event.rpc (RpcCall.set_torrent_options t.torrent_id priorities)])

/-- Embeds the batch loop of `check_and_remove_torrents` (src/block.py:134-189)
over the fetched torrents, threading the `dcache` list and collecting the
events of every torrent in order. -/
def check_and_remove_torrents (forbidden_extensions unwanted_extensions : List Str)
    (applyFails : Torrent → Bool) (dcache : List Str) :
    List Torrent → List Str × List Event
  | [] => (dcache, [])
  | t :: ts =>
    let r := processTorrent forbidden_extensions unwanted_extensions applyFails dcache t
    let rest := check_and_remove_torrents forbidden_extensions unwanted_extensions
      applyFails r.1 ts
    (rest.1, r.2 ++ rest.2)

/-- Names of the torrents that were actually looked at (classified) in an
event trace. -/
def validatedNames (events : List Event) : List Str :=
  events.filterMap (fun e =>
    match e with
    | Event.validated n => some n
    | _ => none)

/-- Outcome of `connect_to_deluge` (src/block.py:78-100): success after a
number of attempts having slept a number of times, `sys.exit(1)` after the
recorded number of attempts, or falling off an empty `range` (retries = 0,
Python returns `None`). -/
inductive ConnectResult where
  | connected (attempts sleeps : Nat)
  | fatalExit (attempts : Nat)
  | fellThrough
deriving DecidableEq, Repr

/-- Embeds the retry loop `for attempt in range(1, retries + 1)` of
`connect_to_deluge` (src/block.py:80-100): a successful attempt returns;
a failed attempt with `attempt < retries` sleeps `delay` seconds and retries;
a failed final attempt calls `sys.exit(1)`. `succeeds i` says whether the
i-th connection attempt succeeds; the Nat arguments are the current attempt
number, the sleeps so far, and the remaining iteration fuel. -/
def connectGo (succeeds : Nat → Bool) (retries : Nat) :
    Nat → Nat → Nat → ConnectResult
  | _, _, 0 => ConnectResult.fellThrough
  | attempt, sleeps, fuel + 1 =>
    if succeeds attempt then ConnectResult.connected attempt sleeps
    else if attempt < retries then connectGo succeeds retries (attempt + 1) (sleeps + 1) fuel
    else ConnectResult.fatalExit attempt

/-- Embeds `connect_to_deluge(retries, delay)` (src/block.py:78-100), starting
at attempt 1 with no sleeps and `retries` loop iterations available. -/
def connect_to_deluge (succeeds : Nat → Bool) (retries : Nat) : ConnectResult :=
  connectGo succeeds retries 1 0 retries

/-- Exceptions that can be raised inside the try block of `check_connection`. -/
inductive PyError where
  | rpcFailure
  | nameError (name : Str)
deriving DecidableEq, Repr

/-- Local variables bound in the scope of `check_connection`'s try block when
line 106 runs: the result of `self.client.call("daemon.info")` at
src/block.py:105 is not assigned to any name, so no local is in scope. -/
def tryBlockScope : List (Str × List (Str × Str)) := []

/-- Reading a name from the local scope: an unbound name raises `NameError`. -/
def lookupLocal (scope : List (Str × List (Str × Str))) (n : Str) :
    Except PyError (List (Str × Str)) :=
  match scope.lookup n with
  | some v => Except.ok v
  | none => Except.error (PyError.nameError n)

/-- Python `dict.get(key, fallback)` over an association-list model of the
daemon's info reply. -/
def dictGet (d : List (Str × Str)) (key fallback : Str) : Str :=
  match d.lookup key with
  | some v => v
  | none => fallback

/-- Embeds the try block of `check_connection` (src/block.py:104-108):
issue the liveness RPC and discard its result, then evaluate
`version = info.get(b"version", ...)`, reading `info` from the local scope. -/
def checkConnectionTry (livenessSucceeds : Bool) (daemonInfo : List (Str × Str)) :
    Except PyError Str := do
  let _ ← if livenessSucceeds then Except.ok daemonInfo
          else Except.error PyError.rpcFailure
  let info ← lookupLocal tryBlockScope ['i', 'n', 'f', 'o']
  Except.ok (dictGet info ['v', 'e', 'r', 's', 'i', 'o', 'n']
    ['U', 'n', 'k', 'n', 'o', 'w', 'n'])

/-- Outcome of `check_connection`: returning `True` with a logged version on a
clean try block, or the reconnect path of the except branch. -/
inductive CheckOutcome where
  | success (version : Str)
  | reconnect (result : ConnectResult)
deriving DecidableEq, Repr

/-- Embeds `check_connection` (src/block.py:102-111): run the try block; any
exception falls into `except Exception`, which logs and calls
`connect_to_deluge` (modelled by the supplied `reconnectResult`). -/
def check_connection (livenessSucceeds : Bool) (daemonInfo : List (Str × Str))
    (reconnectResult : ConnectResult) : CheckOutcome :=
  match checkConnectionTry livenessSucceeds daemonInfo with
  | Except.ok version => CheckOutcome.success version
  | Except.error _ => CheckOutcome.reconnect reconnectResult

/-- The timing values read from config.ini in `run`
(src/block.py:208-209): `torrent_check_interval` and
`connection_check_interval`. -/
structure TimingSettings where
  torrent_check_interval : Nat
  connection_check_interval : Nat
deriving DecidableEq, Repr

/-- Embeds the health-check guard of the main loop (src/block.py:227):
`time.time() - last_connection_check >= 300`. The settings read at
src/block.py:208-209 are in scope but the comparison uses the literal 300. -/
def healthCheckDue (settings : TimingSettings) (now last : Nat) : Bool :=
  300 ≤ now - last

/-- Embeds the inter-tick sleep loop body (src/block.py:233-236): at iteration
index i, the running flag is checked first and the loop breaks if it is
cleared, otherwise one second is slept. Counts the seconds slept, with the
remaining iteration fuel as the last argument. -/
def sleepLoopGo (running : Nat → Bool) : Nat → Nat → Nat
  | _, 0 => 0
  | i, fuel + 1 => if running i then 1 + sleepLoopGo running (i + 1) fuel else 0

/-- Embeds the whole inter-tick sleep (src/block.py:233-236):
`for _ in range(60)`, one-second steps. The settings read at
src/block.py:208-209 are in scope but the range bound is the literal 60. -/
def sleepLoop (settings : TimingSettings) (running : Nat → Bool) : Nat :=
  sleepLoopGo running 0 60

/-! Helper lemmas about the per-file scan. -/

/-- When no zipped file matches the forbidden policy, the scan completes and
returns exactly the zipped priority rewrite, with no forbidden hit. -/
theorem fileScan_eq_of_no_forbidden (fx ux : List Str) :
    ∀ (files : List Str) (prios : List Int),
    (∀ j (h1 : j < files.length) (h2 : j < prios.length),
        matchesAny (files.get ⟨j, h1⟩) fx = false) →
    fileScan fx ux files prios =
      ((files.zip prios).map
        (fun fp => if 0 < fp.2 ∧ matchesAny fp.1 ux = true then (0 : Int) else fp.2),
        none) := by
  intro files
  induction files with
  | nil => intro prios _; simp [fileScan]
  | cons f fs ih =>
    intro prios h
    cases prios with
    | nil => simp [fileScan]
    | cons p ps =>
      have h0 : matchesAny f fx = false := h 0 (by simp) (by simp)
      have hrec := ih ps (fun j h1 h2 =>
        h (j + 1) (Nat.succ_lt_succ h1) (Nat.succ_lt_succ h2))
      have hhead : (if 0 < p then if matchesAny f ux = true then (0 : Int) else p else p)
          = if 0 < p ∧ matchesAny f ux = true then (0 : Int) else p := by
        by_cases hp : (0 : Int) < p <;> by_cases hm : matchesAny f ux = true <;>
          simp [hp, hm]
      simp [fileScan, h0, hrec, List.zip_cons_cons, hhead]

/-- The scan stops at the first forbidden match: when every file before index
`i` misses the forbidden policy and file `i` hits it, the scan reports file
`i`'s path. -/
theorem fileScan_snd_forbidden (fx ux : List Str) :
    ∀ (i : Nat) (files : List Str) (prios : List Int) (hi : i < files.length)
      (hip : i < prios.length),
    (∀ j (hj : j < i), matchesAny (files.get ⟨j, Nat.lt_trans hj hi⟩) fx = false) →
    matchesAny (files.get ⟨i, hi⟩) fx = true →
    (fileScan fx ux files prios).2 = some (files.get ⟨i, hi⟩) := by
  intro i
  induction i with
  | zero =>
    intro files prios hi hip _ hcur
    cases files with
    | nil => exact absurd hi (Nat.not_lt_zero 0)
    | cons f fs =>
      cases prios with
      | nil => exact absurd hip (Nat.not_lt_zero 0)
      | cons p ps =>
        have hf : matchesAny f fx = true := hcur
        simp [fileScan, hf]
  | succ i ih =>
    intro files prios hi hip hprev hcur
    cases files with
    | nil => exact absurd hi (Nat.not_lt_zero _)
    | cons f fs =>
      cases prios with
      | nil => exact absurd hip (Nat.not_lt_zero _)
      | cons p ps =>
        have h0 : matchesAny f fx = false := hprev 0 (Nat.zero_lt_succ i)
        simp only [fileScan, h0, Bool.false_eq_true, if_false]
        exact ih fs ps (Nat.lt_of_succ_lt_succ hi) (Nat.lt_of_succ_lt_succ hip)
          (fun j hj => hprev (j + 1) (Nat.succ_lt_succ hj)) hcur

/-- Once the scan has broken on a forbidden match, any further files and
priorities appended after the scanned (aligned) region are irrelevant: the
scan result is unchanged. -/
theorem fileScan_append_of_break (fx ux : List Str) :
    ∀ (files : List Str) (prios : List Int) (tail : List Str) (ptail : List Int),
    files.length = prios.length →
    (fileScan fx ux files prios).2.isSome = true →
    fileScan fx ux (files ++ tail) (prios ++ ptail) = fileScan fx ux files prios := by
  intro files
  induction files with
  | nil =>
    intro prios tail ptail hlen hsome
    have : prios = [] := List.eq_nil_of_length_eq_zero hlen.symm
    subst this
    simp [fileScan] at hsome
  | cons f fs ih =>
    intro prios tail ptail hlen hsome
    cases prios with
    | nil => simp at hlen
    | cons p ps =>
      by_cases hf : matchesAny f fx = true
      · simp [fileScan, hf]
      · have hf' : matchesAny f fx = false := by
          cases hmm : matchesAny f fx
          · rfl
          · exact absurd hmm hf
        have hlen' : fs.length = ps.length := by
          simpa using hlen
        simp only [fileScan, hf', Bool.false_eq_true, if_false, List.append_eq] at hsome ⊢
        rw [ih ps tail ptail hlen' hsome]

/-- The scan only ever looks at the zipped region: it coincides with the scan
of both lists truncated to their common length. A file beyond that bound is
never inspected for either policy. -/
theorem fileScan_take_min (fx ux : List Str) :
    ∀ (files : List Str) (prios : List Int),
    fileScan fx ux files prios =
      fileScan fx ux (files.take (min files.length prios.length))
        (prios.take (min files.length prios.length)) := by
  intro files
  induction files with
  | nil => intro prios; simp [fileScan]
  | cons f fs ih =>
    intro prios
    cases prios with
    | nil => simp [fileScan]
    | cons p ps =>
      simp only [List.length_cons, Nat.succ_min_succ, List.take_succ_cons]
      by_cases hf : matchesAny f fx = true
      · simp [fileScan, hf]
      · have hf' : matchesAny f fx = false := by
          cases hmm : matchesAny f fx
          · rfl
          · exact absurd hmm hf
        simp only [fileScan, hf', Bool.false_eq_true, if_false]
        rw [ih ps]

/-! Helper lemmas about per-torrent processing and the batch loop. -/

/-- Processing one torrent only ever appends to the cache. -/
theorem processTorrent_fst_append (fx ux : List Str) (applyFails : Torrent → Bool)
    (dcache : List Str) (t : Torrent) :
    ∃ a, (processTorrent fx ux applyFails dcache t).1 = dcache ++ a := by
  by_cases h : t.name ∈ dcache
  · exact ⟨[], by simp [processTorrent, h]⟩
  · exact ⟨[t.name], by simp [processTorrent, h]⟩

/-- The batch loop only ever appends to the cache. -/
theorem batch_fst_append (fx ux : List Str) (applyFails : Torrent → Bool) :
    ∀ (ts : List Torrent) (dcache : List Str),
    ∃ a, (check_and_remove_torrents fx ux applyFails dcache ts).1 = dcache ++ a := by
  intro ts
  induction ts with
  | nil => intro dcache; exact ⟨[], by simp [check_and_remove_torrents]⟩
  | cons t ts ih =>
    intro dcache
    obtain ⟨a1, h1⟩ := processTorrent_fst_append fx ux applyFails dcache t
    obtain ⟨a2, h2⟩ := ih (processTorrent fx ux applyFails dcache t).1
    refine ⟨a1 ++ a2, ?_⟩
    simp only [check_and_remove_torrents]
    rw [h2, h1, List.append_assoc]

/-- The cache produced for one torrent does not depend on whether the apply
RPC fails. -/
theorem processTorrent_fst_congr (fx ux : List Str) (f g : Torrent → Bool)
    (dcache : List Str) (t : Torrent) :
    (processTorrent fx ux f dcache t).1 = (processTorrent fx ux g dcache t).1 := by
  by_cases h : t.name ∈ dcache <;> simp [processTorrent, h]

/-- The torrents actually looked at in one torrent's processing: the torrent
itself when it was not cached, nothing otherwise — independent of apply
failures. -/
theorem processTorrent_validatedNames (fx ux : List Str) (applyFails : Torrent → Bool)
    (dcache : List Str) (t : Torrent) :
    validatedNames (processTorrent fx ux applyFails dcache t).2 =
      if t.name ∈ dcache then [] else [t.name] := by
  by_cases h : t.name ∈ dcache
  · simp [processTorrent, h, validatedNames]
  · simp only [processTorrent, if_neg h]
    cases hc : classifyTorrent fx ux t.files t.file_priorities <;>
      by_cases hfail : applyFails t <;> simp [validatedNames, hfail, h]

/-- Neither the final cache nor the set of torrents looked at depends on
which apply RPCs fail. -/
theorem batch_congr (fx ux : List Str) (f g : Torrent → Bool) :
    ∀ (ts : List Torrent) (dcache : List Str),
    (check_and_remove_torrents fx ux f dcache ts).1
        = (check_and_remove_torrents fx ux g dcache ts).1
    ∧ validatedNames (check_and_remove_torrents fx ux f dcache ts).2
        = validatedNames (check_and_remove_torrents fx ux g dcache ts).2 := by
  intro ts
  induction ts with
  | nil => intro dcache; exact ⟨rfl, rfl⟩
  | cons t ts ih =>
    intro dcache
    have hfst := processTorrent_fst_congr fx ux f g dcache t
    obtain ⟨ih1, ih2⟩ := ih (processTorrent fx ux g dcache t).1
    constructor
    · simp only [check_and_remove_torrents]
      rw [hfst, ih1]
    · simp only [check_and_remove_torrents, validatedNames, List.filterMap_append]
      rw [hfst]
      have hv : validatedNames (processTorrent fx ux f dcache t).2
          = validatedNames (processTorrent fx ux g dcache t).2 := by
        rw [processTorrent_validatedNames, processTorrent_validatedNames]
      exact congrArg₂ (· ++ ·) hv ih2

/-- A torrent's own name is in the cache right after it is processed. -/
theorem name_mem_processTorrent_fst (fx ux : List Str) (applyFails : Torrent → Bool)
    (dcache : List Str) (t : Torrent) :
    t.name ∈ (processTorrent fx ux applyFails dcache t).1 := by
  by_cases h : t.name ∈ dcache <;> simp [processTorrent, h]

/-- Cache membership is preserved by the batch loop. -/
theorem mem_batch_fst_of_mem (fx ux : List Str) (applyFails : Torrent → Bool)
    (ts : List Torrent) (dcache : List Str) (x : Str) (hx : x ∈ dcache) :
    x ∈ (check_and_remove_torrents fx ux applyFails dcache ts).1 := by
  obtain ⟨a, ha⟩ := batch_fst_append fx ux applyFails ts dcache
  rw [ha]
  exact List.mem_append_left a hx

/-- Every torrent of the batch has its name in the final cache, whether or
not its apply RPC failed. -/
theorem mem_batch_fst_of_mem_batch (fx ux : List Str) (applyFails : Torrent → Bool) :
    ∀ (ts : List Torrent) (dcache : List Str) (t : Torrent), t ∈ ts →
    t.name ∈ (check_and_remove_torrents fx ux applyFails dcache ts).1 := by
  intro ts
  induction ts with
  | nil => intro dcache t ht; exact absurd ht (List.not_mem_nil t)
  | cons u ts ih =>
    intro dcache t ht
    rcases List.mem_cons.mp ht with heq | hmem
    · subst heq
      simp only [check_and_remove_torrents]
      exact mem_batch_fst_of_mem fx ux applyFails ts _ t.name
        (name_mem_processTorrent_fst fx ux applyFails dcache t)
    · simp only [check_and_remove_torrents]
      exact ih _ t hmem

/-- Every remove RPC issued for one torrent carries delete_data = true. -/
theorem processTorrent_remove_delete_data (fx ux : List Str)
    (applyFails : Torrent → Bool) (dcache : List Str) (t : Torrent)
    (tid : Str) (b : Bool)
    (hmem : Event.rpc (RpcCall.remove_torrent tid b)
      ∈ (processTorrent fx ux applyFails dcache t).2) :
    b = true := by
  by_cases h : t.name ∈ dcache
  · simp [processTorrent, h] at hmem
  · simp only [processTorrent, if_neg h] at hmem
    cases hc : classifyTorrent fx ux t.files t.file_priorities <;>
      rw [hc] at hmem <;> by_cases hfail : applyFails t <;>
      simp [hfail] at hmem
    exact hmem.2

/-- Every remove RPC issued across a batch carries delete_data = true. -/
theorem batch_remove_delete_data (fx ux : List Str) (applyFails : Torrent → Bool) :
    ∀ (ts : List Torrent) (dcache : List Str) (tid : Str) (b : Bool),
    Event.rpc (RpcCall.remove_torrent tid b)
      ∈ (check_and_remove_torrents fx ux applyFails dcache ts).2 →
    b = true := by
  intro ts
  induction ts with
  | nil =>
    intro dcache tid b hmem
    simp [check_and_remove_torrents] at hmem
  | cons t ts ih =>
    intro dcache tid b hmem
    simp only [check_and_remove_torrents, List.mem_append] at hmem
    rcases hmem with hmem | hmem
    · exact processTorrent_remove_delete_data fx ux applyFails dcache t tid b hmem
    · exact ih _ tid b hmem

/-! Helper lemmas about the connection retry loop. -/

/-- Running the retry loop from `attempt` with exactly `m` failures before a
success reaches `connected` at attempt `attempt + m` with `m` extra sleeps. -/
theorem connectGo_success (succeeds : Nat → Bool) :
    ∀ (m retries attempt sleeps : Nat),
    (∀ j, j < m → succeeds (attempt + j) = false) →
    succeeds (attempt + m) = true →
    attempt + m ≤ retries →
    connectGo succeeds retries attempt sleeps (retries + 1 - attempt)
      = ConnectResult.connected (attempt + m) (sleeps + m) := by
  intro m
  induction m with
  | zero =>
    intro retries attempt sleeps _ hcur hle
    have hfuel : retries + 1 - attempt = (retries - attempt) + 1 := by omega
    rw [hfuel]
    simp only [connectGo]
    simp at hcur
    simp [hcur]
  | succ m ih =>
    intro retries attempt sleeps hprev hcur hle
    have h0 : succeeds attempt = false := by
      have := hprev 0 (Nat.zero_lt_succ m)
      simpa using this
    have hlt : attempt < retries := by omega
    have hfuel : retries + 1 - attempt = (retries + 1 - (attempt + 1)) + 1 := by omega
    rw [hfuel]
    simp only [connectGo, h0, Bool.false_eq_true, if_false, hlt, if_true]
    have hrec := ih retries (attempt + 1) (sleeps + 1)
      (fun j hj => by
        have := hprev (j + 1) (Nat.succ_lt_succ hj)
        have harg : attempt + (j + 1) = attempt + 1 + j := by omega
        rwa [harg] at this)
      (by
        have harg : attempt + 1 + m = attempt + (m + 1) := by omega
        rwa [harg])
      (by omega)
    rw [hrec]
    have h1 : attempt + 1 + m = attempt + (m + 1) := by omega
    have h2 : sleeps + 1 + m = sleeps + (m + 1) := by omega
    rw [h1, h2]

/-- When every attempt fails, the retry loop exhausts its budget and exits
fatally at attempt `retries`. -/
theorem connectGo_all_fail (succeeds : Nat → Bool)
    (hall : ∀ i, succeeds i = false) :
    ∀ (fuel attempt sleeps retries : Nat),
    fuel = retries + 1 - attempt → 1 ≤ attempt → attempt ≤ retries →
    connectGo succeeds retries attempt sleeps fuel
      = ConnectResult.fatalExit retries := by
  intro fuel
  induction fuel with
  | zero => intro attempt sleeps retries hfuel _ hle; omega
  | succ fuel ih =>
    intro attempt sleeps retries hfuel h1 hle
    simp only [connectGo, hall attempt, Bool.false_eq_true, if_false]
    by_cases hlt : attempt < retries
    · simp only [hlt, if_true]
      exact ih (attempt + 1) (sleeps + 1) retries (by omega) (by omega) (by omega)
    · simp only [hlt, if_false]
      have : attempt = retries := by omega
      rw [this]

/-! Helper lemmas about the classification decision. -/

/-- A nonempty file list never classifies as NoAction. -/
theorem classifyTorrent_ne_NoAction (fx ux : List Str) (f : Str) (fs : List Str)
    (prios : List Int) :
    classifyTorrent fx ux (f :: fs) prios ≠ Decision.NoAction := by
  intro h
  rcases hscan : fileScan fx ux (f :: fs) prios with ⟨s1, s2⟩
  cases s2 <;> simp [classifyTorrent, hscan] at h

/-- A scan that broke on a forbidden file classifies as removal with that
file's path as the reason. -/
theorem classifyTorrent_of_snd_some (fx ux : List Str) (files : List Str)
    (prios : List Int) (fname : Str) (hne : files ≠ [])
    (h : (fileScan fx ux files prios).2 = some fname) :
    classifyTorrent fx ux files prios = Decision.Remove fname := by
  cases files with
  | nil => exact absurd rfl hne
  | cons f fs =>
    rcases hscan : fileScan fx ux (f :: fs) prios with ⟨s1, s2⟩
    rw [hscan] at h
    cases s2 with
    | none => simp at h
    | some a =>
      have ha : a = fname := by simpa using h
      subst ha
      simp [classifyTorrent, hscan]

/-- A scan with no forbidden hit classifies as adjustment with the rebuilt
priority list. -/
theorem classifyTorrent_of_snd_none (fx ux : List Str) (files : List Str)
    (prios : List Int) (hne : files ≠ [])
    (h : (fileScan fx ux files prios).2 = none) :
    classifyTorrent fx ux files prios
      = Decision.Adjust (fileScan fx ux files prios).1 := by
  cases files with
  | nil => exact absurd rfl hne
  | cons f fs =>
    rcases hscan : fileScan fx ux (f :: fs) prios with ⟨s1, s2⟩
    rw [hscan] at h
    cases s2 with
    | some a => simp at h
    | none => simp [classifyTorrent, hscan]

/-! Claim theorems. -/

/-- C1: for every aligned snapshot whose file list contains a forbidden match,
with `i` the first matching index, the classification is
`Remove(reason = path_i)`, no file after index `i` is inspected (any files
appended after the first `i+1` pairs leave the decision unchanged), and the
only externally visible action for that torrent is one remove RPC — no
set-options RPC is issued, regardless of unwanted matches recorded before. -/
theorem C1_forbidden_removal (fx ux : List Str) (files : List Str) (prios : List Int)
    (i : Nat) (t : Torrent) (dcache : List Str)
    (hlen : files.length = prios.length)
    (hi : i < files.length)
    (hcur : matchesAny (files.get ⟨i, hi⟩) fx = true)
    (hprev : ∀ j (hj : j < i), matchesAny (files.get ⟨j, Nat.lt_trans hj hi⟩) fx = false)
    (hnc : t.name ∉ dcache) (htf : t.files = files) (htp : t.file_priorities = prios) :
    classifyTorrent fx ux files prios = Decision.Remove (files.get ⟨i, hi⟩)
    ∧ (∀ (tail : List Str) (ptail : List Int),
        classifyTorrent fx ux (files.take (i + 1) ++ tail) (prios.take (i + 1) ++ ptail)
          = Decision.Remove (files.get ⟨i, hi⟩))
    ∧ processTorrent fx ux (fun _ => false) dcache t
        = (dcache ++ [t.name],
           [Event.validated t.name,
            Event.rpc (RpcCall.remove_torrent t.torrent_id true)]) := by
  have hip : i < prios.length := hlen ▸ hi
  have hne : files ≠ [] := by
    intro h
    rw [h] at hi
    exact absurd hi (by simp)
  have hsnd := fileScan_snd_forbidden fx ux i files prios hi hip hprev hcur
  have hclass : classifyTorrent fx ux files prios
      = Decision.Remove (files.get ⟨i, hi⟩) :=
    classifyTorrent_of_snd_some fx ux files prios _ hne hsnd
  have htake : ∀ (tail : List Str) (ptail : List Int),
      classifyTorrent fx ux (files.take (i + 1) ++ tail) (prios.take (i + 1) ++ ptail)
        = Decision.Remove (files.get ⟨i, hi⟩) := by
    intro tail ptail
    have hFlen : (files.take (i + 1)).length = i + 1 := by
      simp [List.length_take]
      omega
    have hPlen : (prios.take (i + 1)).length = i + 1 := by
      simp [List.length_take]
      omega
    have hFi : i < (files.take (i + 1)).length := by omega
    have hPi : i < (prios.take (i + 1)).length := by omega
    have hgetF : (files.take (i + 1)).get ⟨i, hFi⟩ = files.get ⟨i, hi⟩ := by
      simp [List.getElem_take]
    have hsndF : (fileScan fx ux (files.take (i + 1)) (prios.take (i + 1))).2
        = some (files.get ⟨i, hi⟩) := by
      have := fileScan_snd_forbidden fx ux i (files.take (i + 1)) (prios.take (i + 1))
        hFi hPi
        (fun j hj => by
          have hgetj : (files.take (i + 1)).get ⟨j, Nat.lt_trans hj hFi⟩
              = files.get ⟨j, Nat.lt_trans hj hi⟩ := by
            simp [List.getElem_take]
          rw [hgetj]
          exact hprev j hj)
        (by rw [hgetF]; exact hcur)
      rwa [hgetF] at this
    have hext := fileScan_append_of_break fx ux (files.take (i + 1)) (prios.take (i + 1))
      tail ptail (hFlen.trans hPlen.symm) (by rw [hsndF]; rfl)
    have hne' : files.take (i + 1) ++ tail ≠ [] := by
      intro hcontra
      have h1 : files.take (i + 1) = [] := (List.append_eq_nil.mp hcontra).1
      rw [h1] at hFlen
      simp at hFlen
    exact classifyTorrent_of_snd_some fx ux _ _ _ hne' (by rw [hext]; exact hsndF)
  refine ⟨hclass, htake, ?_⟩
  simp only [processTorrent, if_neg hnc, htf, htp, hclass]
  simp

/-- C1 witness: a concrete snapshot with an unwanted match at index 0 and the
first forbidden match at index 1; the decision is removal with that path, the
tail beyond index 1 is irrelevant, and the only RPC is the remove call. -/
theorem C1_witness :
    classifyTorrent [['e']] [['u']] [['a', 'u'], ['b', 'e'], ['c', 'u']] [1, 1, 1]
        = Decision.Remove ['b', 'e']
    ∧ classifyTorrent [['e']] [['u']] [['a', 'u'], ['b', 'e'], ['x']] [1, 1, 9]
        = Decision.Remove ['b', 'e']
    ∧ processTorrent [['e']] [['u']] (fun _ => false) []
        ⟨['d'], ['n'], [['a', 'u'], ['b', 'e'], ['c', 'u']], [1, 1, 1]⟩
        = ([['n']],
           [Event.validated ['n'], Event.rpc (RpcCall.remove_torrent ['d'] true)]) := by
  have h := C1_forbidden_removal [['e']] [['u']]
    [['a', 'u'], ['b', 'e'], ['c', 'u']] [1, 1, 1] 1
    ⟨['d'], ['n'], [['a', 'u'], ['b', 'e'], ['c', 'u']], [1, 1, 1]⟩ []
    rfl (by decide) (by decide)
    (fun j hj => by
      have hj0 : j = 0 := by omega
      subst hj0
      show matchesAny ['a', 'u'] [['e']] = false
      decide)
    (by decide) rfl rfl
  exact ⟨h.1, h.2.1 [['x']] [9], h.2.2⟩

/-- C2: with no forbidden match, an empty file list yields NoAction and no RPC
at all (regardless of the policies), and a nonempty index-aligned snapshot
yields `Adjust(seq)` applied via exactly one set-options RPC, where
`seq[i] = 0` when `priority_i > 0` and `path_i` matches the unwanted policy,
and `seq[i] = priority_i` otherwise, for every index, in original order. -/
theorem C2_no_forbidden_adjust (fx ux : List Str) (files : List Str) (prios : List Int)
    (t : Torrent) (dcache : List Str)
    (hlen : files.length = prios.length)
    (hnf : ∀ j (h1 : j < files.length), matchesAny (files.get ⟨j, h1⟩) fx = false)
    (hne : files ≠ [])
    (hnc : t.name ∉ dcache) (htf : t.files = files) (htp : t.file_priorities = prios) :
    (∀ prios0 : List Int, classifyTorrent fx ux [] prios0 = Decision.NoAction)
    ∧ (∀ (t0 : Torrent) (dcache0 : List Str), t0.name ∉ dcache0 → t0.files = [] →
        processTorrent fx ux (fun _ => false) dcache0 t0
          = (dcache0 ++ [t0.name], [Event.validated t0.name]))
    ∧ ∃ seq, classifyTorrent fx ux files prios = Decision.Adjust seq
        ∧ seq.length = files.length
        ∧ (∀ j (h1 : j < files.length) (h2 : j < prios.length) (h3 : j < seq.length),
            seq.get ⟨j, h3⟩ =
              if 0 < prios.get ⟨j, h2⟩ ∧ matchesAny (files.get ⟨j, h1⟩) ux = true
              then 0 else prios.get ⟨j, h2⟩)
        ∧ processTorrent fx ux (fun _ => false) dcache t
          = (dcache ++ [t.name],
             [Event.validated t.name,
              Event.rpc (RpcCall.set_torrent_options t.torrent_id seq)]) := by
  have hchar := fileScan_eq_of_no_forbidden fx ux files prios (fun j h1 _ => hnf j h1)
  have hclass : classifyTorrent fx ux files prios
      = Decision.Adjust (fileScan fx ux files prios).1 :=
    classifyTorrent_of_snd_none fx ux files prios hne (by rw [hchar])
  refine ⟨fun prios0 => rfl, ?_, (fileScan fx ux files prios).1, hclass, ?_, ?_, ?_⟩
  · intro t0 dcache0 hnc0 hf0
    simp only [processTorrent, if_neg hnc0, hf0]
    simp [classifyTorrent]
  · rw [hchar]
    simp [List.length_zip]
    omega
  · intro j h1 h2 h3
    simp only [hchar, List.get_eq_getElem, List.getElem_map, List.getElem_zip]
  · simp only [processTorrent, if_neg hnc, htf, htp, hclass]
    simp

/-- C2 witness: forbidden suffix rule "e", unwanted suffix rule "u"; the empty
snapshot is NoAction with no RPC; the two-file snapshot gets one set-options
RPC with the unwanted selected file's priority zeroed and the other kept. -/
theorem C2_witness :
    classifyTorrent [['e']] [['u']] [] [5] = Decision.NoAction
    ∧ processTorrent [['e']] [['u']] (fun _ => false) [] ⟨['x'], ['m'], [], []⟩
        = ([['m']], [Event.validated ['m']])
    ∧ ∃ seq, classifyTorrent [['e']] [['u']] [['a', 'u'], ['b']] [1, 2]
          = Decision.Adjust seq
        ∧ processTorrent [['e']] [['u']] (fun _ => false) []
            ⟨['d'], ['n'], [['a', 'u'], ['b']], [1, 2]⟩
          = ([['n']], [Event.validated ['n'],
              Event.rpc (RpcCall.set_torrent_options ['d'] seq)]) := by
  have h := C2_no_forbidden_adjust [['e']] [['u']] [['a', 'u'], ['b']] [1, 2]
    ⟨['d'], ['n'], [['a', 'u'], ['b']], [1, 2]⟩ [] rfl
    (fun j h1 => by
      have h1' : j < 2 := h1
      have : j = 0 ∨ j = 1 := by omega
      rcases this with hj | hj <;> subst hj
      · show matchesAny ['a', 'u'] [['e']] = false
        decide
      · show matchesAny ['b'] [['e']] = false
        decide)
    (by decide) (by decide) rfl rfl
  obtain ⟨seq, hseq1, _, _, hseq4⟩ := h.2.2
  exact ⟨h.1 [5], h.2.1 ⟨['x'], ['m'], [], []⟩ [] (by decide) rfl, seq, hseq1, hseq4⟩

/-- C3 (code bug): the claim says a successful liveness RPC returns with the
daemon's version and performs no reconnection. In the source the call's result
is never assigned, and line 106 reads the undefined name `info`, raising
NameError inside the try block; the except branch then reconnects. This
theorem evaluates the embedded code at the failing input: even with the
liveness RPC succeeding, `check_connection` reconnects. -/
theorem C3_liveness_success_still_reconnects
    (daemonInfo : List (Str × Str)) (r : ConnectResult) :
    check_connection true daemonInfo r = CheckOutcome.reconnect r := rfl

/-- C4 (code bug): the claim says the loop uses the configured
`connection_check_interval` and `torrent_check_interval`. The source reads
them (src/block.py:208-209) but then compares elapsed time against the
literal 300 and sleeps `range(60)` one-second steps. At settings (10, 30)
with 30 seconds elapsed, no health check fires and a full tick sleeps 60
increments; both behaviors are independent of the settings; only the
per-increment shutdown re-check of the claim holds. -/
theorem C4_timing_ignores_settings :
    healthCheckDue ⟨10, 30⟩ 30 0 = false
    ∧ sleepLoop ⟨10, 30⟩ (fun _ => true) = 60
    ∧ sleepLoop ⟨10, 30⟩ (fun i => decide (i < 5)) = 5
    ∧ (∀ (s s' : TimingSettings) (now last : Nat),
        healthCheckDue s now last = healthCheckDue s' now last)
    ∧ (∀ (s s' : TimingSettings) (running : Nat → Bool),
        sleepLoop s running = sleepLoop s' running) :=
  ⟨by decide, by decide, by decide, fun _ _ _ _ => rfl, fun _ _ _ => rfl⟩

/-- C5: for maxAttempts n ≥ 1, a stub failing k < n times then succeeding
makes `connect_to_deluge` return success at attempt k+1 having slept exactly
k times, and a stub that always fails makes it exit fatally after exactly n
attempts. -/
theorem C5_connect_retry (n : Nat) (hn : 1 ≤ n) :
    (∀ (succeeds : Nat → Bool) (k : Nat), k < n →
      (∀ i, 1 ≤ i → i ≤ k → succeeds i = false) →
      succeeds (k + 1) = true →
      connect_to_deluge succeeds n = ConnectResult.connected (k + 1) k)
    ∧ (∀ succeeds : Nat → Bool, (∀ i, succeeds i = false) →
      connect_to_deluge succeeds n = ConnectResult.fatalExit n) := by
  constructor
  · intro succeeds k hk hfail hsucc
    have h := connectGo_success succeeds k n 1 0
      (fun j hj => hfail (1 + j) (by omega) (by omega))
      (by rwa [Nat.add_comm 1 k]) (by omega)
    have hfuel : n + 1 - 1 = n := by omega
    rw [hfuel] at h
    have h1 : 1 + k = k + 1 := Nat.add_comm 1 k
    have h2 : 0 + k = k := Nat.zero_add k
    rw [h1, h2] at h
    exact h
  · intro succeeds hall
    exact connectGo_all_fail succeeds hall n 1 0 n (by omega) Nat.le.refl hn

/-- C5 witness: with maxAttempts 3, a stub succeeding from attempt 3 on
connects at attempt 3 after exactly 2 sleeps; an always-failing stub exits
fatally after exactly 3 attempts. -/
theorem C5_witness :
    connect_to_deluge (fun i => decide (3 ≤ i)) 3 = ConnectResult.connected 3 2
    ∧ connect_to_deluge (fun _ => false) 3 = ConnectResult.fatalExit 3 := by
  have h := C5_connect_retry 3 (by decide)
  refine ⟨?_, h.2 (fun _ => false) (fun _ => rfl)⟩
  exact h.1 (fun i => decide (3 ≤ i)) 2 (by decide)
    (fun i h1 h2 => by
      simp only [decide_eq_false_iff_not]
      omega)
    (by decide)

/-- C6: the evaluation cache grows monotonically (names are only ever
appended, never evicted), and a torrent whose name is already cached is
skipped entirely: no classification, no events, no RPC — whatever its current
file set and priorities are. -/
theorem C6_cache_monotone_and_skips (fx ux : List Str) (applyFails : Torrent → Bool)
    (ts : List Torrent) (dcache : List Str) (t : Torrent)
    (hmem : t.name ∈ dcache) :
    (∃ added, (check_and_remove_torrents fx ux applyFails dcache ts).1
        = dcache ++ added)
    ∧ processTorrent fx ux applyFails dcache t = (dcache, []) := by
  refine ⟨batch_fst_append fx ux applyFails ts dcache, ?_⟩
  simp [processTorrent, hmem]

/-- C6 witness: a cached name is skipped even though the torrent now has a
different file set, and the batch cache only grows. -/
theorem C6_witness :
    (∃ added, (check_and_remove_torrents [] [] (fun _ => false) [['n']]
        [⟨['d'], ['n'], [['a']], [1]⟩]).1 = [['n']] ++ added)
    ∧ processTorrent [] [] (fun _ => false) [['n']]
        ⟨['d'], ['n'], [['b'], ['c']], [1, 1]⟩ = ([['n']], []) :=
  C6_cache_monotone_and_skips [] [] (fun _ => false)
    [⟨['d'], ['n'], [['a']], [1]⟩] [['n']] ⟨['d'], ['n'], [['b'], ['c']], [1, 1]⟩
    (by decide)

/-- C7: a failing per-torrent apply RPC is caught (the loop continues and the
torrent only produces a logged error event), the final cache and the set of
torrents evaluated in the batch are exactly those of a failure-free run, and
the failed torrent's name is still recorded in the cache. -/
theorem C7_per_torrent_error_isolation (fx ux : List Str) (applyFails : Torrent → Bool)
    (ts : List Torrent) (dcache : List Str) (t : Torrent)
    (ht : t ∈ ts) (hfails : applyFails t = true) :
    (check_and_remove_torrents fx ux applyFails dcache ts).1
        = (check_and_remove_torrents fx ux (fun _ => false) dcache ts).1
    ∧ validatedNames (check_and_remove_torrents fx ux applyFails dcache ts).2
        = validatedNames (check_and_remove_torrents fx ux (fun _ => false) dcache ts).2
    ∧ t.name ∈ (check_and_remove_torrents fx ux applyFails dcache ts).1
    ∧ (∀ dcache1, t.name ∉ dcache1 → t.files ≠ [] →
        processTorrent fx ux applyFails dcache1 t
          = (dcache1 ++ [t.name],
             [Event.validated t.name, Event.rpcError t.name])) := by
  refine ⟨(batch_congr fx ux applyFails (fun _ => false) ts dcache).1,
    (batch_congr fx ux applyFails (fun _ => false) ts dcache).2,
    mem_batch_fst_of_mem_batch fx ux applyFails ts dcache t ht, ?_⟩
  intro dcache1 hnot hne
  simp only [processTorrent, if_neg hnot]
  cases hc : classifyTorrent fx ux t.files t.file_priorities with
  | NoAction =>
    exfalso
    cases hfe : t.files with
    | nil => exact hne hfe
    | cons f fs =>
      rw [hfe] at hc
      exact classifyTorrent_ne_NoAction fx ux f fs t.file_priorities hc
  | Remove reason => simp [hfails]
  | Adjust priorities => simp [hfails]

/-- C7 witness: with every apply RPC failing, a two-torrent batch still
evaluates both torrents, caches both names, and the failing torrent yields a
caught, logged error. -/
theorem C7_witness :
    (check_and_remove_torrents [] [] (fun _ => true) []
        [⟨['d'], ['n'], [['a']], [1]⟩, ⟨['e'], ['m'], [['b']], [2]⟩]).1
      = (check_and_remove_torrents [] [] (fun _ => false) []
        [⟨['d'], ['n'], [['a']], [1]⟩, ⟨['e'], ['m'], [['b']], [2]⟩]).1
    ∧ validatedNames (check_and_remove_torrents [] [] (fun _ => true) []
        [⟨['d'], ['n'], [['a']], [1]⟩, ⟨['e'], ['m'], [['b']], [2]⟩]).2
      = validatedNames (check_and_remove_torrents [] [] (fun _ => false) []
        [⟨['d'], ['n'], [['a']], [1]⟩, ⟨['e'], ['m'], [['b']], [2]⟩]).2
    ∧ ['n'] ∈ (check_and_remove_torrents [] [] (fun _ => true) []
        [⟨['d'], ['n'], [['a']], [1]⟩, ⟨['e'], ['m'], [['b']], [2]⟩]).1
    ∧ processTorrent [] [] (fun _ => true) [] ⟨['d'], ['n'], [['a']], [1]⟩
        = ([['n']], [Event.validated ['n'], Event.rpcError ['n']]) := by
  have h := C7_per_torrent_error_isolation [] [] (fun _ => true)
    [⟨['d'], ['n'], [['a']], [1]⟩, ⟨['e'], ['m'], [['b']], [2]⟩] []
    ⟨['d'], ['n'], [['a']], [1]⟩ (by decide) rfl
  exact ⟨h.1, h.2.1, h.2.2.1, h.2.2.2 [] (by decide) (by decide)⟩

/-- C8: the extension match used for both policies is true exactly when the
path ends with some rule of the rule set (exact, case-sensitive character
comparison, no normalization), and the empty rule set never matches. -/
theorem C8_matcher_iff_suffix (p : Str) (R : List Str) :
    (matchesAny p R = true ↔ ∃ r ∈ R, r <:+ p) ∧ matchesAny p [] = false := by
  constructor
  · simp [matchesAny, List.any_eq_true, List.isSuffixOf_iff_suffix]
  · rfl

/-- C9: every remove-torrent RPC the batch loop can issue carries the
delete-data flag set to true, unconditionally. -/
theorem C9_remove_always_deletes_data (fx ux : List Str) (applyFails : Torrent → Bool)
    (ts : List Torrent) (dcache : List Str) (tid : Str) (b : Bool)
    (hmem : Event.rpc (RpcCall.remove_torrent tid b)
      ∈ (check_and_remove_torrents fx ux applyFails dcache ts).2) :
    b = true :=
  batch_remove_delete_data fx ux applyFails ts dcache tid b hmem

/-- C9 witness: a concrete batch whose torrent has a forbidden file produces
a remove RPC, and its delete-data flag is true. -/
theorem C9_witness :
    Event.rpc (RpcCall.remove_torrent ['d'] true)
      ∈ (check_and_remove_torrents [['e']] [] (fun _ => false) []
          [⟨['d'], ['n'], [['e']], [1]⟩]).2
    ∧ true = true :=
  ⟨by decide, C9_remove_always_deletes_data [['e']] [] (fun _ => false)
    [⟨['d'], ['n'], [['e']], [1]⟩] [] ['d'] true (by decide)⟩

/-- C10: with mismatched lengths the scan only walks the first
min(len files, len priorities) aligned pairs — it coincides with the scan of
both lists truncated there, so a file beyond the bound is never inspected for
either policy — and when no file in that range matches the forbidden policy
the decision is an Adjust whose payload has exactly min-many entries (no
removal, even if a file beyond the bound matches the forbidden policy). -/
theorem C10_zip_truncation (fx ux : List Str) (files : List Str) (prios : List Int)
    (hne : files ≠ [])
    (hnf : ∀ j (hj : j < min files.length prios.length),
        matchesAny (files.get
          ⟨j, Nat.lt_of_lt_of_le hj (Nat.min_le_left _ _)⟩) fx = false) :
    fileScan fx ux files prios
      = fileScan fx ux (files.take (min files.length prios.length))
          (prios.take (min files.length prios.length))
    ∧ ∃ seq, classifyTorrent fx ux files prios = Decision.Adjust seq
        ∧ seq.length = min files.length prios.length := by
  refine ⟨fileScan_take_min fx ux files prios, ?_⟩
  have hchar := fileScan_eq_of_no_forbidden fx ux files prios
    (fun j h1 h2 => hnf j (by omega))
  exact ⟨(fileScan fx ux files prios).1,
    classifyTorrent_of_snd_none fx ux files prios hne (by rw [hchar]),
    by simp [hchar, List.length_zip]⟩

/-- C10 witness: two files but one priority; the file at index 1 matches the
forbidden policy yet the scan never reaches it — the decision is a one-entry
Adjust, not a removal. -/
theorem C10_witness :
    fileScan [['e']] [] [['a'], ['e']] [1] = fileScan [['e']] [] [['a']] [1]
    ∧ ∃ seq, classifyTorrent [['e']] [] [['a'], ['e']] [1] = Decision.Adjust seq
        ∧ seq.length = 1 := by
  have h := C10_zip_truncation [['e']] [] [['a'], ['e']] [1] (by decide)
    (fun j hj => by
      have hj' : j < 1 := hj
      have hj0 : j = 0 := by omega
      subst hj0
      show matchesAny ['a'] [['e']] = false
      decide)
  exact ⟨h.1, h.2⟩

end DelugeBlock
